import Mathlib

/-!
Shallow embedding of the three charting scripts of the repository
(`plot_months.py`, `plot_families.py`, `plot_top_families.py`).

Each input file is represented as a list of lines, each line already split
on the fixed comma delimiter (`line.split(",")`), i.e. as a `List String`
of fields.  Python floats are modelled as exact rationals; Python ints as
`Int`; `datetime` values as a year/month/day triple.  Fallible Python
operations (`int(...)`, `float(...)`, `strptime`, list indexing) are
modelled in the `Option` monad: `none` is an uncaught exception that
aborts the run.
-/

/-- A `datetime.datetime` as produced or compared by the scripts: only the
year, month and day fields are ever relevant (`strptime("%Y-%m")` leaves
the time-of-day at zero for every value compared here). -/
structure PyDate where
  year : Nat
  month : Nat
  day : Nat
deriving DecidableEq, Repr

/-- Linear key realising the chronological order on the dates appearing in
the scripts (month is at most 12, day at most 31). -/
def PyDate.key (d : PyDate) : Nat := (d.year * 13 + d.month) * 32 + d.day

/-- `datetime.datetime.min` (year 1, January 1). -/
def pyDateMin : PyDate := ⟨1, 1, 1⟩

/-- `datetime.datetime.max` (December 31, year 9999). -/
def pyDateMax : PyDate := ⟨9999, 12, 31⟩

/-- Python `min(a, b)` on datetimes: returns `a` unless `b` is strictly
smaller. -/
def pyMinDate (a b : PyDate) : PyDate := if b.key < a.key then b else a

/-- Python `max(a, b)` on datetimes: returns `a` unless `b` is strictly
larger. -/
def pyMaxDate (a b : PyDate) : PyDate := if a.key < b.key then b else a

/-- Rational addition, written out on numerators and denominators so that
concrete runs evaluate inside the kernel; equal to `a + b`
(`qAdd_eq` below). -/
def qAdd (a b : ℚ) : ℚ :=
  Rat.divInt (a.num * (b.den : ℤ) + b.num * (a.den : ℤ)) ((a.den : ℤ) * (b.den : ℤ))

/-- Rational multiplication on numerators and denominators; equal to
`a * b` (`qMul_eq` below). -/
def qMul (a b : ℚ) : ℚ :=
  Rat.divInt (a.num * b.num) ((a.den : ℤ) * (b.den : ℤ))

/-- Rational division on numerators and denominators; equal to `a / b`
(`qDiv_eq` below; both are 0 when `b = 0`, a case no script reaches —
the only divisors are the nonzero `usd_factor` constants). -/
def qDiv (a b : ℚ) : ℚ :=
  Rat.divInt (a.num * (b.den : ℤ)) ((a.den : ℤ) * b.num)

/-- Rational subtraction; equal to `a - b`. -/
def qSub (a b : ℚ) : ℚ := qAdd a (-b)

/-- Floor of a rational (`⌊q⌋`), via flooring integer division. -/
def ratFloor (q : ℚ) : ℤ := Int.fdiv q.num (q.den : ℤ)

/-- Numeric value of a decimal digit character. -/
def digitVal (c : Char) : Nat := c.toNat - 48

/-- Value of a string of decimal digit characters. -/
def digitsToNat (l : List Char) : Nat := l.foldl (fun n c => n * 10 + digitVal c) 0

/-- A nonempty string of decimal digits. -/
def isDigitStr (l : List Char) : Bool := !l.isEmpty && l.all Char.isDigit

/-- Split a character list at every occurrence of `sep` (Python
`s.split(sep)`); always returns at least one (possibly empty) component. -/
def splitOnChar (sep : Char) : List Char → List (List Char)
  | [] => [[]]
  | c :: rest =>
    let r := splitOnChar sep rest
    if c = sep then [] :: r
    else
      match r with
      | [] => [[c]]
      | h :: t => (c :: h) :: t

/-- Model of Python `int(s)`: an optional sign followed by one or more
decimal digits.  (Other forms Python would accept, such as surrounding
whitespace or underscores, do not occur in the data files and are not
modelled.)  `none` is the `ValueError` raised otherwise. -/
def parseInt (s : String) : Option Int :=
  match s.toList with
  | [] => none
  | c :: rest =>
    if c = '-' then
      if isDigitStr rest then some (-(digitsToNat rest : Int)) else none
    else if c = '+' then
      if isDigitStr rest then some ((digitsToNat rest : Int)) else none
    else if isDigitStr (c :: rest) then some ((digitsToNat (c :: rest) : Int)) else none

/-- Unsigned part of Python `float(s)` in plain decimal notation: digits
with an optional dot and fractional digits (`"12"`, `"12."`, `".5"`,
`"3.25"`).  Exponent notation does not occur in the data files and is not
modelled.  The value is kept as an exact rational. -/
def parseFloatDigits (l : List Char) : Option ℚ :=
  match splitOnChar '.' l with
  | [ip] => if isDigitStr ip then some ((digitsToNat ip : ℚ)) else none
  | [ip, fp] =>
    if (isDigitStr ip || isDigitStr fp) && ip.all Char.isDigit && fp.all Char.isDigit then
      some (Rat.divInt ((digitsToNat ip * 10 ^ fp.length + digitsToNat fp : ℕ) : ℤ)
        ((10 : ℤ) ^ fp.length))
    else none
  | _ => none

/-- Model of Python `float(s)`: optional sign and a plain decimal literal;
`none` is the `ValueError` on any other string. -/
def parseFloat (s : String) : Option ℚ :=
  match s.toList with
  | [] => none
  | c :: rest =>
    if c = '-' then (parseFloatDigits rest).map (fun q => -q)
    else if c = '+' then parseFloatDigits rest
    else parseFloatDigits (c :: rest)

/-- Model of `datetime.datetime.strptime(s, "%Y-%m")`: exactly four year
digits (year at least 1), a dash, and one or two month digits with value
1..12 (CPython matches `%Y` with `\d\d\d\d` and `%m` with
`1[0-2]|0[1-9]|[1-9]`); the resulting datetime has day 1.  `none` is the
`ValueError` on any other string. -/
def parseMonth (s : String) : Option PyDate :=
  match splitOnChar '-' s.toList with
  | [ys, ms] =>
    if isDigitStr ys ∧ ys.length = 4 ∧ isDigitStr ms ∧ ms.length ≤ 2 then
      let y := digitsToNat ys
      let m := digitsToNat ms
      if 1 ≤ y ∧ 1 ≤ m ∧ m ≤ 12 then some ⟨y, m, 1⟩ else none
    else none
  | _ => none

/-- Model of Python `round(x, n)` on the exact value: round half to even
at the `n`-th decimal place.  (Python rounds the binary double nearest to
`x`; on the decimally short values these scripts read the exact-value
rounding used here agrees except for representation error in the last
binary place, which no property below depends on.) -/
def roundTo (q : ℚ) (n : Nat) : ℚ :=
  let scaled : ℚ := qMul q ((10 : ℚ) ^ n)
  let fl : ℤ := ratFloor scaled
  let frac : ℚ := qSub scaled ((fl : ℤ) : ℚ)
  let half : ℚ := Rat.divInt 1 2
  let r : ℤ :=
    if frac < half then fl
    else if half < frac then fl + 1
    else if fl % 2 = 0 then fl else fl + 1
  Rat.divInt r ((10 : ℤ) ^ n)

/-- Outcome of running one of the scripts: a usage message printed to
standard output together with the `exit(1)` code, an uncaught parse error
(`ValueError` traceback), an uncaught `IndexError`, or normal completion
carrying the in-memory data handed to the plotting code. -/
inductive Outcome (α : Type) where
  | usageExit (stdout : String) (code : Nat)
  | parseAbort
  | indexError
  | ok (a : α)
deriving DecidableEq, Repr

/-! ## plot_months.py -/

/-- `usd_factor = 1000000` of `plot_months.py` (USD shown in millions). -/
def usd_factor : ℚ := 1000000

/-- The four parallel lists `months, count, amount_btc, amount_usd` built
by the ingestion loop of `plot_months.py`. -/
structure MonthsData where
  months : List PyDate
  count : List Int
  amount_btc : List ℚ
  amount_usd : List ℚ
deriving DecidableEq, Repr

/-- Parsing of one data line of `plot_months.py` (lines 33-36): month from
field 0, count from field 1, BTC sum rounded to 4 decimals from field 2,
USD sum divided by `usd_factor` and rounded to 2 decimals from field 3.
A missing field (`IndexError`) or a failing conversion (`ValueError`)
aborts the run. -/
def monthsRowParse (parts : List String) : Option (PyDate × Int × ℚ × ℚ) := do
  let p0 ← parts[0]?
  let p1 ← parts[1]?
  let p2 ← parts[2]?
  let p3 ← parts[3]?
  let m ← parseMonth p0
  let c ← parseInt p1
  let b ← parseFloat p2
  let u ← parseFloat p3
  pure (m, c, roundTo b 4, roundTo (qDiv u usd_factor) 2)

/-- One iteration of the ingestion loop of `plot_months.py`: the parsed
fields are appended to the four lists. -/
def monthsStep (st : MonthsData) (parts : List String) : Option MonthsData :=
  match monthsRowParse parts with
  | none => none
  | some (m, c, b, u) =>
    some ⟨st.months ++ [m], st.count ++ [c], st.amount_btc ++ [b], st.amount_usd ++ [u]⟩

/-- The ingestion loop of `plot_months.py` over a list of data lines. -/
def monthsIngestRows (st : MonthsData) : List (List String) → Option MonthsData
  | [] => some st
  | r :: rs =>
    match monthsStep st r with
    | none => none
    | some st2 => monthsIngestRows st2 rs

/-- Ingestion of a whole file by `plot_months.py`: `readlines()[1:]` skips
the first (header) line, then every remaining line is processed in order
starting from four empty lists. -/
def monthsIngestFile (fileLines : List (List String)) : Option MonthsData :=
  monthsIngestRows ⟨[], [], [], []⟩ (fileLines.drop 1)

/-- The peak test of line 61 of `plot_months.py` at index `j`:
`y_values[j] > y_values[j-1] + epsilon and y_values[j] > y_values[j+1] + epsilon`
(indices are in range whenever the loop of line 60 evaluates this). -/
def peakCond (ys : List ℚ) (eps : ℚ) (j : Nat) : Bool :=
  decide (qAdd (ys.getD (j-1) 0) eps < ys.getD j 0) &&
    decide (qAdd (ys.getD (j+1) 0) eps < ys.getD j 0)

/-- The indices at which `ax.text` places a value label on one panel of
`plot_months.py`: the peak loop of lines 60-62 runs over
`range(1, len(y_values) - 1)` and labels `j` exactly when `peakCond`
holds, and lines 63-64 then label the first and the last point
unconditionally.  (The script only reaches this code with nonempty data;
on an empty list line 63 would raise an `IndexError`.) -/
def annotatedIdxs (ys : List ℚ) (eps : ℚ) : List Nat :=
  ((List.range' 1 (ys.length - 2)).filter (fun j => peakCond ys eps j)) ++ [0, ys.length - 1]

/-- The `epsilons = [75, 300, 1.6]` list of `plot_months.py`
(`1.6 = 8/5`). -/
def epsilons : List ℚ := [75, 300, Rat.divInt 8 5]

/-- The `stats = [count, amount_btc, amount_usd]` list of
`plot_months.py` (counts are plotted as numbers; cast to ℚ so the three
panels have one type). -/
def statsOf (st : MonthsData) : List (List ℚ) :=
  [st.count.map (fun c => (c : ℚ)), st.amount_btc, st.amount_usd]

/-- The usage message of `plot_months.py` (line 17), as a function of
`sys.argv[0]`. -/
def monthsUsage (argv0 : String) : String :=
  "Usage: python " ++ argv0 ++
    " timeline_months.csv\n\n       Run run_stats.sh to get timeline_months.csv file"

/-- Top-level control flow of `plot_months.py` as a function of the
argument vector and the (already comma-split) lines of the file named by
the argument: the argument-count check of lines 16-18 happens before the
file is opened; then the file is ingested; then the plotting code runs,
whose first data access is `months[0]` in `ax.set_xlim(months[0],
months[-1])` (line 52) — an `IndexError` when no data line was read. -/
def monthsMain (argv : List String) (fileLines : List (List String)) : Outcome MonthsData :=
  if argv.length ≠ 2 then .usageExit (monthsUsage (argv.headD "")) 1
  else
    match monthsIngestFile fileLines with
    | none => .parseAbort
    | some st =>
      match st.months with
      | [] => .indexError
      | _ => .ok st

/-! ## plot_families.py -/

/-- The per-family record of `plot_families.py`: the four parallel lists
under the keys `"month"`, `"count"`, `"sum_btc"`, `"sum_usd"`.  (The
`"colour"` entry, a fresh `np.random.rand(3,)` sample used only by the
renderer, is nondeterministic and carries no data; it is not modelled.) -/
structure FamRec where
  month : List PyDate
  count : List Int
  sum_btc : List ℚ
  sum_usd : List ℚ
deriving DecidableEq, Repr

/-- The record a family starts with when first seen (lines 44-48). -/
def emptyFamRec : FamRec := ⟨[], [], [], []⟩

/-- Appending one parsed row to a family's record (lines 50-53). -/
def FamRec.addRow (r : FamRec) (m : PyDate) (c : Int) (b u : ℚ) : FamRec :=
  ⟨r.month ++ [m], r.count ++ [c], r.sum_btc ++ [b], r.sum_usd ++ [u]⟩

/-- The `families` dict of `plot_families.py`, modelled as an association
list in insertion order (Python dicts preserve insertion order). -/
def FamMap := List (String × FamRec)
deriving DecidableEq, Repr

/-- Lookup in an insertion-ordered dict model (first binding wins; the
maps built below never bind a key twice). -/
def famFind {α : Type} : List (String × α) → String → Option α
  | [], _ => none
  | (k, v) :: rest, fam => if k = fam then some v else famFind rest fam

/-- The key list of an insertion-ordered dict model. -/
def keysOf {α : Type} (m : List (String × α)) : List String := m.map Prod.fst

/-- `if not family in families: ...` followed by the four appends: update
the family's record in place, or append a new binding at the end on first
sight. -/
def famAdd (fams : FamMap) (fam : String) (m : PyDate) (c : Int) (b u : ℚ) : FamMap :=
  match fams with
  | [] => [(fam, emptyFamRec.addRow m c b u)]
  | (k, r) :: rest =>
    if k = fam then (k, r.addRow m c b u) :: rest
    else (k, r) :: famAdd rest fam m c b u

/-- What one loop iteration decides to do with a line: skip it, or add a
parsed row for a family. -/
inductive RowAct (α : Type) where
  | skip
  | addData (a : α)
deriving DecidableEq, Repr

/-- Parsing of one line by the ingestion loop of `plot_families.py`
(lines 33-40): family from field 0; if field 1 is the sentinel `"Total"`
the line is skipped (`continue`); otherwise field 1 is parsed as a month,
field 2 as an int, fields 3 and 4 as floats.  A missing field or failing
conversion aborts the run (`none`). -/
def famRowParse (parts : List String) : Option (RowAct (String × PyDate × Int × ℚ × ℚ)) := do
  let fam ← parts[0]?
  let p1 ← parts[1]?
  if p1 = "Total" then pure .skip
  else
    let m ← parseMonth p1
    let c ← parseInt (← parts[2]?)
    let b ← parseFloat (← parts[3]?)
    let u ← parseFloat (← parts[4]?)
    pure (.addData (fam, m, c, b, u))

/-- One iteration of the ingestion loop of `plot_families.py`. -/
def famStep (fams : FamMap) (parts : List String) : Option FamMap :=
  match famRowParse parts with
  | none => none
  | some .skip => some fams
  | some (.addData (fam, m, c, b, u)) => some (famAdd fams fam m c b u)

/-- The ingestion loop of `plot_families.py` over the data lines. -/
def famIngestRows (fams : FamMap) : List (List String) → Option FamMap
  | [] => some fams
  | r :: rs =>
    match famStep fams r with
    | none => none
    | some fams2 => famIngestRows fams2 rs

/-- Ingestion of a whole file by `plot_families.py`: `readlines()[1:]`
skips the header line; the loop starts from an empty dict. -/
def famIngestFile (fileLines : List (List String)) : Option FamMap :=
  famIngestRows [] (fileLines.drop 1)

/-- `SMALL_THRESHOLD = 1000` of `plot_families.py`. -/
def SMALL_THRESHOLD : ℚ := 1000

/-- `MEDIUM_THRESHOLD = 50000` of `plot_families.py`. -/
def MEDIUM_THRESHOLD : ℚ := 50000

/-- Python `max(l)` on a list of numbers: the running maximum over the
list, an error (`ValueError`, here `none`) on an empty list. -/
def pyListMax (l : List ℚ) : Option ℚ :=
  match l with
  | [] => none
  | x :: xs => some (xs.foldl (fun a b => if a < b then b else a) x)

/-- The grouping loop of `plot_families.py` (lines 59-67): every family,
in dict order, is appended to exactly one of `small`, `medium`, `large`
according to `max(families[family]["sum_usd"])` and the two thresholds.
`none` models the `ValueError` `max` would raise on an empty list, which
cannot happen for an ingested map. -/
def buckets : FamMap → Option (List String × List String × List String)
  | [] => some ([], [], [])
  | (fam, r) :: rest => do
    let m ← pyListMax r.sum_usd
    let (s, md, lg) ← buckets rest
    if m < SMALL_THRESHOLD then pure (fam :: s, md, lg)
    else if m < MEDIUM_THRESHOLD then pure (s, fam :: md, lg)
    else pure (s, md, fam :: lg)

/-- The maximum monthly USD sum recorded for a family in an ingested map
(`max(families[family]["sum_usd"])`). -/
def maxUsd (fams : FamMap) (fam : String) : Option ℚ := do
  pyListMax (← famFind fams fam).sum_usd

/-- The usage message of `plot_families.py` (line 20). -/
def famUsage (argv0 : String) : String :=
  "Usage: python " ++ argv0 ++
    " timeline_families.csv\n\n       Run run_stats.sh to get timeline_families.csv file"

/-- Top-level control flow of `plot_families.py`: the argument-count
check of lines 19-21 precedes the file open; then the file is ingested
and the result handed to the grouping and plotting code. -/
def famMain (argv : List String) (fileLines : List (List String)) : Outcome FamMap :=
  if argv.length ≠ 2 then .usageExit (famUsage (argv.headD "")) 1
  else
    match famIngestFile fileLines with
    | none => .parseAbort
    | some fams => .ok fams

/-! ## plot_top_families.py -/

/-- `topN = 15` of `plot_top_families.py`. -/
def topN : Nat := 15

/-- `usd_factor = 1` of `plot_top_families.py`. -/
def topUsdFactor : ℚ := 1

/-- The per-family record of `plot_top_families.py`: the four parallel
lists plus the three running totals (lines 57-64). -/
structure TopRec where
  month : List PyDate
  count : List Int
  sum_btc : List ℚ
  sum_usd : List ℚ
  total_count : Int
  total_sum_btc : ℚ
  total_sum_usd : ℚ
deriving DecidableEq, Repr

/-- The record a family starts with when first seen (lines 57-64). -/
def emptyTopRec : TopRec := ⟨[], [], [], [], 0, 0, 0⟩

/-- Appending one parsed row (lines 65-71): the `sum_usd` list receives
`sum_usd / usd_factor` while `total_sum_usd` accumulates the raw
`sum_usd`. -/
def TopRec.addRow (r : TopRec) (m : PyDate) (c : Int) (b u : ℚ) : TopRec :=
  ⟨r.month ++ [m], r.count ++ [c], r.sum_btc ++ [b], r.sum_usd ++ [qDiv u topUsdFactor],
    r.total_count + c, qAdd r.total_sum_btc b, qAdd r.total_sum_usd u⟩

/-- The in-memory state of the ingestion loop of `plot_top_families.py`:
the `families` dict (insertion-ordered) and the running `min_month` /
`max_month`. -/
structure TopState where
  families : List (String × TopRec)
  min_month : PyDate
  max_month : PyDate
deriving DecidableEq, Repr

/-- The state before the loop (lines 35-37): empty dict, `min_month =
datetime.max`, `max_month = datetime.min`. -/
def topInit : TopState := ⟨[], pyDateMax, pyDateMin⟩

/-- Insert-or-update in the `families` dict of `plot_top_families.py`. -/
def topAdd (fams : List (String × TopRec)) (fam : String) (m : PyDate) (c : Int) (b u : ℚ) :
    List (String × TopRec) :=
  match fams with
  | [] => [(fam, emptyTopRec.addRow m c b u)]
  | (k, r) :: rest =>
    if k = fam then (k, r.addRow m c b u) :: rest
    else (k, r) :: topAdd rest fam m c b u

/-- Parsing of one line by the loop of `plot_top_families.py` (lines
42-53): family from field 0; any line whose family is `"BlackCat"` is
skipped before anything else (lines 44-45); a line whose field 1 is
`"Total"` is skipped (lines 46-47); otherwise the month, count and the
two sums are parsed, any failure aborting the run. -/
def topRowParse (parts : List String) : Option (RowAct (String × PyDate × Int × ℚ × ℚ)) := do
  let fam ← parts[0]?
  if fam = "BlackCat" then pure .skip
  else
    let p1 ← parts[1]?
    if p1 = "Total" then pure .skip
    else
      let m ← parseMonth p1
      let c ← parseInt (← parts[2]?)
      let b ← parseFloat (← parts[3]?)
      let u ← parseFloat (← parts[4]?)
      pure (.addData (fam, m, c, b, u))

/-- One iteration of the ingestion loop of `plot_top_families.py`: on a
data line the running `min_month` / `max_month` are updated (lines 49-50)
and the family's record is extended (lines 55-71). -/
def topStep (st : TopState) (parts : List String) : Option TopState :=
  match topRowParse parts with
  | none => none
  | some .skip => some st
  | some (.addData (fam, m, c, b, u)) =>
    some ⟨topAdd st.families fam m c b u,
      pyMinDate st.min_month m, pyMaxDate st.max_month m⟩

/-- The ingestion loop of `plot_top_families.py` over the data lines. -/
def topIngestRows (st : TopState) : List (List String) → Option TopState
  | [] => some st
  | r :: rs =>
    match topStep st r with
    | none => none
    | some st2 => topIngestRows st2 rs

/-- Ingestion of a whole file by `plot_top_families.py` (header line
skipped by `readlines()[1:]`). -/
def topIngestFile (fileLines : List (List String)) : Option TopState :=
  topIngestRows topInit (fileLines.drop 1)

/-- The comparison `sorted(..., key=..., reverse=True)` sorts by: `a` may
come before `b` exactly when `key a` is not smaller than `key b`. -/
def descLE (key : String × TopRec → ℚ) (a b : String × TopRec) : Bool :=
  decide (key b ≤ key a)

/-- `sorted(families.items(), key=..., reverse=True)` for a numeric key:
Python's sort is stable and `reverse=True` keeps equal elements in their
original order, which is exactly the stable `mergeSort` under `descLE`. -/
def sortedDescBy (key : String × TopRec → ℚ) (fams : List (String × TopRec)) :
    List (String × TopRec) :=
  fams.mergeSort (descLE key)

/-- `list(families_by_<metric>.keys())[:topN]` (lines 74-79): the key
list of the descending-sorted dict, truncated to the first `topN`. -/
def topFamilies (key : String × TopRec → ℚ) (fams : List (String × TopRec)) : List String :=
  ((sortedDescBy key fams).map Prod.fst).take topN

/-- The sort key of `families_by_count` (`item[1]["total_count"]`),
cast to ℚ so the three metrics share one key type (the cast preserves
the integer order). -/
def keyCount (p : String × TopRec) : ℚ := ((p.2.total_count : ℚ))

/-- The sort key of `families_by_btc` (`item[1]["total_sum_btc"]`). -/
def keyBtc (p : String × TopRec) : ℚ := p.2.total_sum_btc

/-- The sort key of `families_by_usd` (`item[1]["total_sum_usd"]`). -/
def keyUsd (p : String × TopRec) : ℚ := p.2.total_sum_usd

/-- The usage message of `plot_top_families.py` (line 20). -/
def topUsage (argv0 : String) : String :=
  "Usage: python " ++ argv0 ++
    " timeline_families.csv\n\n       Run run_stats.sh to get timeline_families.csv file"

/-- Top-level control flow of `plot_top_families.py`: the argument-count
check of lines 19-21 precedes the file open; then the file is ingested
and the state handed to the ranking and plotting code. -/
def topMain (argv : List String) (fileLines : List (List String)) : Outcome TopState :=
  if argv.length ≠ 2 then .usageExit (topUsage (argv.headD "")) 1
  else
    match topIngestFile fileLines with
    | none => .parseAbort
    | some st => .ok st

/-! ## Row-label bookkeeping shared by the claims -/

/-- The category labels of the data (non-header) lines whose month field
is not the sentinel `"Total"`, in file order with repetitions. -/
def rowLabels (rows : List (List String)) : List String :=
  rows.filterMap (fun parts =>
    if parts[1]? = some "Total" then none else parts[0]?)

/-- As `rowLabels`, but with the unconditional `"BlackCat"` skip of
`plot_top_families.py` applied first. -/
def topRowLabels (rows : List (List String)) : List String :=
  rows.filterMap (fun parts =>
    if parts[0]? = some "BlackCat" then none
    else if parts[1]? = some "Total" then none else parts[0]?)

/-- Append a label to a key list unless already present: the effect one
data row has on the key set of the dict being built. -/
def insertIfAbsent (ks : List String) (l : String) : List String :=
  if l ∈ ks then ks else ks ++ [l]

/-- The key list a run of labels leaves behind, starting from `ks`:
first-seen order. -/
def firstSeenFrom (ks : List String) (ls : List String) : List String :=
  ls.foldl insertIfAbsent ks

/-! ## Arithmetic bridge lemmas -/

theorem qAdd_eq (a b : ℚ) : qAdd a b = a + b := by
  rw [qAdd, Rat.divInt_eq_div]
  have ha : ((a.den : ℚ)) ≠ 0 := by exact_mod_cast a.den_ne_zero
  have hb : ((b.den : ℚ)) ≠ 0 := by exact_mod_cast b.den_ne_zero
  conv_rhs => rw [← Rat.num_div_den a, ← Rat.num_div_den b]
  rw [div_add_div _ _ ha hb]
  push_cast
  ring_nf

theorem qMul_eq (a b : ℚ) : qMul a b = a * b := by
  rw [qMul, Rat.divInt_eq_div]
  have ha : ((a.den : ℚ)) ≠ 0 := by exact_mod_cast a.den_ne_zero
  have hb : ((b.den : ℚ)) ≠ 0 := by exact_mod_cast b.den_ne_zero
  conv_rhs => rw [← Rat.num_div_den a, ← Rat.num_div_den b]
  rw [div_mul_div_comm]
  push_cast
  ring_nf

theorem qDiv_eq (a b : ℚ) : qDiv a b = a / b := by
  rw [qDiv, Rat.divInt_eq_div]
  by_cases hb0 : b = 0
  · subst hb0
    simp
  · have ha : ((a.den : ℚ)) ≠ 0 := by exact_mod_cast a.den_ne_zero
    have hbn : ((b.num : ℚ)) ≠ 0 := by
      exact_mod_cast Rat.num_ne_zero.mpr hb0
    have hbd : ((b.den : ℚ)) ≠ 0 := by exact_mod_cast b.den_ne_zero
    conv_rhs => rw [← Rat.num_div_den a, ← Rat.num_div_den b]
    rw [div_div_div_eq]
    push_cast
    ring_nf

theorem qSub_eq (a b : ℚ) : qSub a b = a - b := by
  rw [qSub, qAdd_eq]
  ring

theorem qDiv_one (a : ℚ) : qDiv a 1 = a := by
  rw [qDiv_eq, div_one]

/-! ## Association-list (dict model) lemmas -/

theorem mem_keysOf_iff {α : Type} (m : List (String × α)) (k : String) :
    k ∈ keysOf m ↔ ∃ v, famFind m k = some v := by
  induction m with
  | nil => simp [keysOf, famFind]
  | cons p rest ih =>
    obtain ⟨k2, v2⟩ := p
    by_cases hk : k2 = k
    · subst hk
      simp [keysOf, famFind]
    · simp only [keysOf, List.map_cons, List.mem_cons, famFind, if_neg hk]
      constructor
      · rintro (h | h)
        · exact absurd h.symm hk
        · exact (ih).mp h
      · intro h
        exact Or.inr ((ih).mpr h)

theorem mem_insertIfAbsent (ks : List String) (l k : String) :
    k ∈ insertIfAbsent ks l ↔ k ∈ ks ∨ k = l := by
  unfold insertIfAbsent
  by_cases h : l ∈ ks
  · simp only [if_pos h]
    constructor
    · exact fun hk => Or.inl hk
    · rintro (hk | rfl)
      · exact hk
      · exact h
  · simp [if_neg h]

theorem nodup_insertIfAbsent (ks : List String) (l : String) (h : ks.Nodup) :
    (insertIfAbsent ks l).Nodup := by
  unfold insertIfAbsent
  by_cases hl : l ∈ ks
  · simpa [if_pos hl]
  · simp only [if_neg hl, List.nodup_append]
    simp [h, hl]

theorem toFinset_insertIfAbsent (ks : List String) (l : String) :
    (insertIfAbsent ks l).toFinset = ks.toFinset ∪ {l} := by
  ext k
  simp [mem_insertIfAbsent, or_comm]

theorem firstSeenFrom_nil (ks : List String) : firstSeenFrom ks [] = ks := rfl

theorem firstSeenFrom_cons (ks : List String) (l : String) (ls : List String) :
    firstSeenFrom ks (l :: ls) = firstSeenFrom (insertIfAbsent ks l) ls := rfl

theorem firstSeenFrom_nodup (ls : List String) :
    ∀ ks : List String, ks.Nodup → (firstSeenFrom ks ls).Nodup := by
  induction ls with
  | nil => intro ks h; exact h
  | cons l ls ih =>
    intro ks h
    rw [firstSeenFrom_cons]
    exact ih _ (nodup_insertIfAbsent ks l h)

theorem firstSeenFrom_toFinset (ls : List String) :
    ∀ ks : List String, (firstSeenFrom ks ls).toFinset = ks.toFinset ∪ ls.toFinset := by
  induction ls with
  | nil => intro ks; simp [firstSeenFrom_nil]
  | cons l ls ih =>
    intro ks
    rw [firstSeenFrom_cons, ih, toFinset_insertIfAbsent]
    ext k
    simp only [Finset.mem_union, List.mem_toFinset, List.toFinset_cons, Finset.mem_insert,
      Finset.mem_singleton]
    tauto

theorem keysOf_famAdd (fams : FamMap) (fam : String) (m : PyDate) (c : Int) (b u : ℚ) :
    keysOf (famAdd fams fam m c b u) = insertIfAbsent (keysOf fams) fam := by
  induction fams with
  | nil => simp [famAdd, keysOf, insertIfAbsent]
  | cons p rest ih =>
    obtain ⟨k, r⟩ := p
    by_cases hk : k = fam
    · subst hk
      simp [famAdd, keysOf, insertIfAbsent]
    · simp only [famAdd, if_neg hk, keysOf, List.map_cons] at ih ⊢
      rw [ih]
      unfold insertIfAbsent
      by_cases hmem : fam ∈ List.map Prod.fst rest
      · rw [if_pos hmem, if_pos (List.mem_cons_of_mem _ hmem)]
      · rw [if_neg hmem, if_neg ?_, List.cons_append]
        intro hc
        rcases List.mem_cons.mp hc with h | h
        · exact hk h.symm
        · exact hmem h

theorem famFind_famAdd (fams : FamMap) (fam : String) (m : PyDate) (c : Int) (b u : ℚ)
    (k : String) :
    famFind (famAdd fams fam m c b u) k =
      if k = fam then some (((famFind fams fam).getD emptyFamRec).addRow m c b u)
      else famFind fams k := by
  induction fams with
  | nil =>
    by_cases hk : k = fam
    · subst hk; simp [famAdd, famFind]
    · simp [famAdd, famFind, hk, Ne.symm hk]
  | cons p rest ih =>
    obtain ⟨k2, r⟩ := p
    by_cases h2 : k2 = fam
    · subst h2
      by_cases hk : k2 = k
      · subst hk
        simp [famAdd, famFind]
      · simp [famAdd, famFind, hk, Ne.symm hk]
    · by_cases hk : k2 = k
      · subst hk
        simp [famAdd, famFind, h2, Ne.symm h2]
      · simp only [famAdd, if_neg h2, famFind, if_neg hk]
        rw [ih]

/-! ## Row-parse inversion lemmas -/

theorem famRowParse_skip (parts : List String) (h : famRowParse parts = some RowAct.skip) :
    ∃ f, parts[0]? = some f ∧ parts[1]? = some "Total" := by
  unfold famRowParse at h
  cases h0 : parts[0]? with
  | none => rw [h0] at h; simp at h
  | some f =>
    rw [h0] at h
    cases h1 : parts[1]? with
    | none => rw [h1] at h; simp at h
    | some p1 =>
      rw [h1] at h
      by_cases ht : p1 = "Total"
      · subst ht; exact ⟨f, rfl, rfl⟩
      · exfalso
        simp only [Option.bind_eq_bind, Option.some_bind] at h
        rw [if_neg ht] at h
        simp only [Option.bind_eq_bind, Option.bind_eq_some, Option.pure_def,
          Option.some.injEq] at h
        rcases h with ⟨m, hm, x2, hx2, c, hc, x3, hx3, b, hb, x4, hx4, u, hu, hq⟩
        cases hq

theorem famRowParse_data (parts : List String) (fam : String) (m : PyDate) (c : Int) (b u : ℚ)
    (h : famRowParse parts = some (RowAct.addData (fam, m, c, b, u))) :
    parts[0]? = some fam ∧ ∃ p1, parts[1]? = some p1 ∧ p1 ≠ "Total" := by
  unfold famRowParse at h
  cases h0 : parts[0]? with
  | none => rw [h0] at h; simp at h
  | some f =>
    rw [h0] at h
    cases h1 : parts[1]? with
    | none => rw [h1] at h; simp at h
    | some p1 =>
      rw [h1] at h
      by_cases ht : p1 = "Total"
      · subst ht
        simp only [Option.bind_eq_bind, Option.some_bind, if_pos rfl, Option.pure_def,
          Option.some.injEq] at h
        cases h
      · simp only [Option.bind_eq_bind, Option.some_bind] at h
        rw [if_neg ht] at h
        simp only [Option.bind_eq_bind, Option.bind_eq_some, Option.pure_def,
          Option.some.injEq] at h
        rcases h with ⟨m2, hm, x2, hx2, c2, hc, x3, hx3, b2, hb, x4, hx4, u2, hu, hq⟩
        obtain ⟨rfl, rfl, rfl, rfl, rfl⟩ : f = fam ∧ m2 = m ∧ c2 = c ∧ b2 = b ∧ u2 = u := by
          simpa using hq
        exact ⟨rfl, p1, rfl, ht⟩

theorem topRowParse_skip (parts : List String) (h : topRowParse parts = some RowAct.skip) :
    parts[0]? = some "BlackCat" ∨
      ∃ f, parts[0]? = some f ∧ f ≠ "BlackCat" ∧ parts[1]? = some "Total" := by
  unfold topRowParse at h
  cases h0 : parts[0]? with
  | none => rw [h0] at h; simp at h
  | some f =>
    rw [h0] at h
    by_cases hb : f = "BlackCat"
    · subst hb; exact Or.inl rfl
    · simp only [Option.bind_eq_bind, Option.some_bind] at h
      rw [if_neg hb] at h
      cases h1 : parts[1]? with
      | none => rw [h1] at h; simp at h
      | some p1 =>
        rw [h1] at h
        by_cases ht : p1 = "Total"
        · subst ht; exact Or.inr ⟨f, rfl, hb, rfl⟩
        · exfalso
          simp only [Option.bind_eq_bind, Option.some_bind] at h
          rw [if_neg ht] at h
          simp only [Option.bind_eq_bind, Option.bind_eq_some, Option.pure_def,
            Option.some.injEq] at h
          rcases h with ⟨m, hm, x2, hx2, c, hc, x3, hx3, b, hb2, x4, hx4, u, hu, hq⟩
          cases hq

theorem topRowParse_data (parts : List String) (fam : String) (m : PyDate) (c : Int) (b u : ℚ)
    (h : topRowParse parts = some (RowAct.addData (fam, m, c, b, u))) :
    parts[0]? = some fam ∧ fam ≠ "BlackCat" ∧ ∃ p1, parts[1]? = some p1 ∧ p1 ≠ "Total" := by
  unfold topRowParse at h
  cases h0 : parts[0]? with
  | none => rw [h0] at h; simp at h
  | some f =>
    rw [h0] at h
    by_cases hb : f = "BlackCat"
    · subst hb
      simp only [Option.bind_eq_bind, Option.some_bind, if_pos rfl, Option.pure_def,
        Option.some.injEq] at h
      cases h
    · simp only [Option.bind_eq_bind, Option.some_bind] at h
      rw [if_neg hb] at h
      cases h1 : parts[1]? with
      | none => rw [h1] at h; simp at h
      | some p1 =>
        rw [h1] at h
        by_cases ht : p1 = "Total"
        · subst ht
          simp only [Option.bind_eq_bind, Option.some_bind, if_pos rfl, Option.pure_def,
            Option.some.injEq] at h
          cases h
        · simp only [Option.bind_eq_bind, Option.some_bind] at h
          rw [if_neg ht] at h
          simp only [Option.bind_eq_bind, Option.bind_eq_some, Option.pure_def,
            Option.some.injEq] at h
          rcases h with ⟨m2, hm, x2, hx2, c2, hc, x3, hx3, b2, hb2, x4, hx4, u2, hu, hq⟩
          obtain ⟨rfl, rfl, rfl, rfl, rfl⟩ : f = fam ∧ m2 = m ∧ c2 = c ∧ b2 = b ∧ u2 = u := by
            simpa using hq
          exact ⟨rfl, hb, p1, rfl, ht⟩

theorem keysOf_topAdd (fams : List (String × TopRec)) (fam : String) (m : PyDate) (c : Int)
    (b u : ℚ) :
    keysOf (topAdd fams fam m c b u) = insertIfAbsent (keysOf fams) fam := by
  induction fams with
  | nil => simp [topAdd, keysOf, insertIfAbsent]
  | cons p rest ih =>
    obtain ⟨k, r⟩ := p
    by_cases hk : k = fam
    · subst hk
      simp [topAdd, keysOf, insertIfAbsent]
    · simp only [topAdd, if_neg hk, keysOf, List.map_cons] at ih ⊢
      rw [ih]
      unfold insertIfAbsent
      by_cases hmem : fam ∈ List.map Prod.fst rest
      · rw [if_pos hmem, if_pos (List.mem_cons_of_mem _ hmem)]
      · rw [if_neg hmem, if_neg ?_, List.cons_append]
        intro hc
        rcases List.mem_cons.mp hc with h | h
        · exact hk h.symm
        · exact hmem h

theorem famFind_topAdd (fams : List (String × TopRec)) (fam : String) (m : PyDate) (c : Int)
    (b u : ℚ) (k : String) :
    famFind (topAdd fams fam m c b u) k =
      if k = fam then some (((famFind fams fam).getD emptyTopRec).addRow m c b u)
      else famFind fams k := by
  induction fams with
  | nil =>
    by_cases hk : k = fam
    · subst hk; simp [topAdd, famFind]
    · simp [topAdd, famFind, hk, Ne.symm hk]
  | cons p rest ih =>
    obtain ⟨k2, r⟩ := p
    by_cases h2 : k2 = fam
    · subst h2
      by_cases hk : k2 = k
      · subst hk
        simp [topAdd, famFind]
      · simp [topAdd, famFind, hk, Ne.symm hk]
    · by_cases hk : k2 = k
      · subst hk
        simp [topAdd, famFind, h2, Ne.symm h2]
      · simp only [topAdd, if_neg h2, famFind, if_neg hk]
        rw [ih]

/-! ## Ingestion-loop invariants -/

theorem famIngestRows_keys (rows : List (List String)) :
    ∀ st out, famIngestRows st rows = some out →
      keysOf out = firstSeenFrom (keysOf st) (rowLabels rows) := by
  induction rows with
  | nil =>
    intro st out h
    simp only [famIngestRows, Option.some.injEq] at h
    subst h
    simp [rowLabels, firstSeenFrom_nil]
  | cons r rs ih =>
    intro st out h
    unfold famIngestRows at h
    cases hs : famStep st r with
    | none => rw [hs] at h; cases h
    | some st2 =>
      rw [hs] at h
      have hout := ih st2 out h
      unfold famStep at hs
      cases hp : famRowParse r with
      | none => rw [hp] at hs; cases hs
      | some act =>
        rw [hp] at hs
        cases act with
        | skip =>
          simp only [Option.some.injEq] at hs
          subst hs
          obtain ⟨f, h0, h1⟩ := famRowParse_skip r hp
          rw [hout]
          have : rowLabels (r :: rs) = rowLabels rs := by
            simp [rowLabels, List.filterMap_cons, h1]
          rw [this]
        | addData a =>
          obtain ⟨fam, m, c, b, u⟩ := a
          simp only [Option.some.injEq] at hs
          subst hs
          obtain ⟨h0, p1, h1, ht⟩ := famRowParse_data r fam m c b u hp
          rw [hout, keysOf_famAdd]
          have : rowLabels (r :: rs) = fam :: rowLabels rs := by
            simp [rowLabels, List.filterMap_cons, h0, h1, ht]
          rw [this, firstSeenFrom_cons]

theorem topIngestRows_keys (rows : List (List String)) :
    ∀ st out, topIngestRows st rows = some out →
      keysOf out.families = firstSeenFrom (keysOf st.families) (topRowLabels rows) := by
  induction rows with
  | nil =>
    intro st out h
    simp only [topIngestRows, Option.some.injEq] at h
    subst h
    simp [topRowLabels, firstSeenFrom_nil]
  | cons r rs ih =>
    intro st out h
    unfold topIngestRows at h
    cases hs : topStep st r with
    | none => rw [hs] at h; cases h
    | some st2 =>
      rw [hs] at h
      have hout := ih st2 out h
      unfold topStep at hs
      cases hp : topRowParse r with
      | none => rw [hp] at hs; cases hs
      | some act =>
        rw [hp] at hs
        cases act with
        | skip =>
          simp only [Option.some.injEq] at hs
          subst hs
          rw [hout]
          rcases topRowParse_skip r hp with h0 | ⟨f, h0, hbc, h1⟩
          · have : topRowLabels (r :: rs) = topRowLabels rs := by
              simp [topRowLabels, List.filterMap_cons, h0]
            rw [this]
          · have : topRowLabels (r :: rs) = topRowLabels rs := by
              simp [topRowLabels, List.filterMap_cons, h0, h1, hbc]
            rw [this]
        | addData a =>
          obtain ⟨fam, m, c, b, u⟩ := a
          simp only [Option.some.injEq] at hs
          subst hs
          obtain ⟨h0, hbc, p1, h1, ht⟩ := topRowParse_data r fam m c b u hp
          rw [hout]
          have : topRowLabels (r :: rs) = fam :: topRowLabels rs := by
            simp [topRowLabels, List.filterMap_cons, h0, h1, ht, hbc]
          rw [this, firstSeenFrom_cons]
          simp [keysOf_topAdd]

/-- The record invariant of `plot_families.py`: the four per-family lists
are parallel (equal length) and nonempty. -/
def GoodFamRec (r : FamRec) : Prop :=
  r.count.length = r.month.length ∧ r.sum_btc.length = r.month.length ∧
    r.sum_usd.length = r.month.length ∧ r.month ≠ []

/-- The record invariant of `plot_top_families.py`: parallel nonempty
lists and running totals equal to the sums of the per-row values. -/
def GoodTopRec (r : TopRec) : Prop :=
  r.count.length = r.month.length ∧ r.sum_btc.length = r.month.length ∧
    r.sum_usd.length = r.month.length ∧ r.month ≠ [] ∧
    r.total_count = r.count.sum ∧ r.total_sum_btc = r.sum_btc.sum ∧
    r.total_sum_usd = r.sum_usd.sum

theorem goodFamRec_addRow (r : FamRec) (m : PyDate) (c : Int) (b u : ℚ)
    (hc : r.count.length = r.month.length) (hb : r.sum_btc.length = r.month.length)
    (hu : r.sum_usd.length = r.month.length) :
    GoodFamRec (r.addRow m c b u) := by
  unfold GoodFamRec FamRec.addRow
  simp [hc, hb, hu]

theorem goodTopRec_addRow (r : TopRec) (m : PyDate) (c : Int) (b u : ℚ)
    (hc : r.count.length = r.month.length) (hb : r.sum_btc.length = r.month.length)
    (hu : r.sum_usd.length = r.month.length)
    (htc : r.total_count = r.count.sum) (htb : r.total_sum_btc = r.sum_btc.sum)
    (htu : r.total_sum_usd = r.sum_usd.sum) :
    GoodTopRec (r.addRow m c b u) := by
  unfold GoodTopRec TopRec.addRow
  refine ⟨by simp [hc], by simp [hb], by simp [hu], by simp, ?_, ?_, ?_⟩
  · simp [htc]
  · simp [qAdd_eq, htb]
  · simp [qAdd_eq, htu, topUsdFactor, qDiv_one]

theorem famIngestRows_good (rows : List (List String)) :
    ∀ st out, famIngestRows st rows = some out →
      (∀ k r, famFind st k = some r → GoodFamRec r) →
      ∀ k r, famFind out k = some r → GoodFamRec r := by
  induction rows with
  | nil =>
    intro st out h hgood
    simp only [famIngestRows, Option.some.injEq] at h
    subst h
    exact hgood
  | cons r rs ih =>
    intro st out h hgood
    unfold famIngestRows at h
    cases hs : famStep st r with
    | none => rw [hs] at h; cases h
    | some st2 =>
      rw [hs] at h
      refine ih st2 out h ?_
      unfold famStep at hs
      cases hp : famRowParse r with
      | none => rw [hp] at hs; cases hs
      | some act =>
        rw [hp] at hs
        cases act with
        | skip =>
          simp only [Option.some.injEq] at hs
          subst hs
          exact hgood
        | addData a =>
          obtain ⟨fam, m, c, b, u⟩ := a
          simp only [Option.some.injEq] at hs
          subst hs
          intro k rec hk
          rw [famFind_famAdd] at hk
          by_cases hkf : k = fam
          · rw [if_pos hkf, Option.some.injEq] at hk
            subst hk
            cases hf : famFind st fam with
            | none =>
              simp only [hf, Option.getD_none]
              exact goodFamRec_addRow _ _ _ _ _ rfl rfl rfl
            | some r0 =>
              simp only [hf, Option.getD_some]
              obtain ⟨h1, h2, h3, _⟩ := hgood fam r0 hf
              exact goodFamRec_addRow _ _ _ _ _ h1 h2 h3
          · rw [if_neg hkf] at hk
            exact hgood k rec hk

theorem topIngestRows_good (rows : List (List String)) :
    ∀ st out, topIngestRows st rows = some out →
      (∀ k r, famFind st.families k = some r → GoodTopRec r) →
      ∀ k r, famFind out.families k = some r → GoodTopRec r := by
  induction rows with
  | nil =>
    intro st out h hgood
    simp only [topIngestRows, Option.some.injEq] at h
    subst h
    exact hgood
  | cons r rs ih =>
    intro st out h hgood
    unfold topIngestRows at h
    cases hs : topStep st r with
    | none => rw [hs] at h; cases h
    | some st2 =>
      rw [hs] at h
      refine ih st2 out h ?_
      unfold topStep at hs
      cases hp : topRowParse r with
      | none => rw [hp] at hs; cases hs
      | some act =>
        rw [hp] at hs
        cases act with
        | skip =>
          simp only [Option.some.injEq] at hs
          subst hs
          exact hgood
        | addData a =>
          obtain ⟨fam, m, c, b, u⟩ := a
          simp only [Option.some.injEq] at hs
          subst hs
          intro k rec hk
          simp only at hk
          rw [famFind_topAdd] at hk
          by_cases hkf : k = fam
          · rw [if_pos hkf, Option.some.injEq] at hk
            subst hk
            cases hf : famFind st.families fam with
            | none =>
              simp only [hf, Option.getD_none]
              exact goodTopRec_addRow _ _ _ _ _ rfl rfl rfl rfl rfl rfl
            | some r0 =>
              simp only [hf, Option.getD_some]
              obtain ⟨h1, h2, h3, _, h5, h6, h7⟩ := hgood fam r0 hf
              exact goodTopRec_addRow _ _ _ _ _ h1 h2 h3 h5 h6 h7
          · rw [if_neg hkf] at hk
            exact hgood k rec hk

/-- Length of the `"month"` list of a family's record, 0 when the family
is absent. -/
def famLen : Option FamRec → Nat
  | none => 0
  | some r => r.month.length

/-- Length of the `"month"` list of a family's record in the top-N
script, 0 when the family is absent. -/
def topLen : Option TopRec → Nat
  | none => 0
  | some r => r.month.length

/-- A data line of `plot_families.py` that contributes a record to family
`k`: its first field is `k` and its month field is not `"Total"`. -/
def famRowMatch (k : String) (parts : List String) : Bool :=
  decide (parts[0]? = some k) && !(decide (parts[1]? = some "Total"))

/-- A data line of `plot_top_families.py` that contributes a record to
family `k`: first field `k`, `k` not the excluded `"BlackCat"`, and the
month field not `"Total"`. -/
def topRowMatch (k : String) (parts : List String) : Bool :=
  decide (parts[0]? = some k) && !(decide (k = "BlackCat")) &&
    !(decide (parts[1]? = some "Total"))

theorem famIngestRows_len (rows : List (List String)) :
    ∀ st out, famIngestRows st rows = some out → ∀ k,
      famLen (famFind out k) = famLen (famFind st k) + rows.countP (famRowMatch k) := by
  induction rows with
  | nil =>
    intro st out h k
    simp only [famIngestRows, Option.some.injEq] at h
    subst h
    simp
  | cons r rs ih =>
    intro st out h k
    unfold famIngestRows at h
    cases hs : famStep st r with
    | none => rw [hs] at h; cases h
    | some st2 =>
      rw [hs] at h
      have hout := ih st2 out h k
      unfold famStep at hs
      cases hp : famRowParse r with
      | none => rw [hp] at hs; cases hs
      | some act =>
        rw [hp] at hs
        cases act with
        | skip =>
          simp only [Option.some.injEq] at hs
          subst hs
          obtain ⟨f, h0, h1⟩ := famRowParse_skip r hp
          have hm : famRowMatch k r = false := by
            simp [famRowMatch, h1]
          rw [hout, List.countP_cons_of_neg _ _ (by simp [hm])]
        | addData a =>
          obtain ⟨fam, m, c, b, u⟩ := a
          simp only [Option.some.injEq] at hs
          subst hs
          obtain ⟨h0, p1, h1, ht⟩ := famRowParse_data r fam m c b u hp
          rw [hout, famFind_famAdd]
          by_cases hkf : k = fam
          · subst hkf
            have hm : famRowMatch k r = true := by
              simp [famRowMatch, h0, h1, ht]
            rw [List.countP_cons_of_pos _ _ (by simp [hm]), if_pos rfl]
            cases hf : famFind st k with
            | none => simp [hf, famLen, FamRec.addRow, emptyFamRec]; omega
            | some r0 => simp [hf, famLen, FamRec.addRow]; omega
          · have hm : famRowMatch k r = false := by
              simp only [famRowMatch, h0]
              have : ¬(some fam = some k) := by
                intro hc
                exact hkf (Option.some.inj hc).symm
              simp [this]
            rw [List.countP_cons_of_neg _ _ (by simp [hm]), if_neg hkf]

theorem topIngestRows_len (rows : List (List String)) :
    ∀ st out, topIngestRows st rows = some out → ∀ k,
      topLen (famFind out.families k) =
        topLen (famFind st.families k) + rows.countP (topRowMatch k) := by
  induction rows with
  | nil =>
    intro st out h k
    simp only [topIngestRows, Option.some.injEq] at h
    subst h
    simp
  | cons r rs ih =>
    intro st out h k
    unfold topIngestRows at h
    cases hs : topStep st r with
    | none => rw [hs] at h; cases h
    | some st2 =>
      rw [hs] at h
      have hout := ih st2 out h k
      unfold topStep at hs
      cases hp : topRowParse r with
      | none => rw [hp] at hs; cases hs
      | some act =>
        rw [hp] at hs
        cases act with
        | skip =>
          simp only [Option.some.injEq] at hs
          subst hs
          have hm : topRowMatch k r = false := by
            rcases topRowParse_skip r hp with h0 | ⟨f, h0, hbc, h1⟩
            · by_cases hkb : k = "BlackCat"
              · simp [topRowMatch, hkb]
              · have : ¬(some "BlackCat" = some k) := by
                  intro hc
                  exact hkb (Option.some.inj hc).symm
                simp [topRowMatch, h0, this]
            · simp [topRowMatch, h1]
          rw [hout, List.countP_cons_of_neg _ _ (by simp [hm])]
        | addData a =>
          obtain ⟨fam, m, c, b, u⟩ := a
          simp only [Option.some.injEq] at hs
          subst hs
          obtain ⟨h0, hbc, p1, h1, ht⟩ := topRowParse_data r fam m c b u hp
          rw [hout]
          simp only [famFind_topAdd]
          by_cases hkf : k = fam
          · subst hkf
            have hm : topRowMatch k r = true := by
              simp [topRowMatch, h0, h1, ht, hbc]
            rw [List.countP_cons_of_pos _ _ (by simp [hm]), if_pos rfl]
            cases hf : famFind st.families k with
            | none => simp [hf, topLen, TopRec.addRow, emptyTopRec]; omega
            | some r0 => simp [hf, topLen, TopRec.addRow]; omega
          · have hm : topRowMatch k r = false := by
              simp only [topRowMatch, h0]
              have : ¬(some fam = some k) := by
                intro hc
                exact hkf (Option.some.inj hc).symm
              simp [this]
            rw [List.countP_cons_of_neg _ _ (by simp [hm]), if_neg hkf]

theorem monthsIngestRows_len (rows : List (List String)) :
    ∀ st out, monthsIngestRows st rows = some out →
      st.count.length = st.months.length → st.amount_btc.length = st.months.length →
      st.amount_usd.length = st.months.length →
      out.count.length = out.months.length ∧ out.amount_btc.length = out.months.length ∧
        out.amount_usd.length = out.months.length := by
  induction rows with
  | nil =>
    intro st out h h1 h2 h3
    simp only [monthsIngestRows, Option.some.injEq] at h
    subst h
    exact ⟨h1, h2, h3⟩
  | cons r rs ih =>
    intro st out h h1 h2 h3
    unfold monthsIngestRows at h
    cases hs : monthsStep st r with
    | none => rw [hs] at h; cases h
    | some st2 =>
      rw [hs] at h
      unfold monthsStep at hs
      cases hp : monthsRowParse r with
      | none => rw [hp] at hs; cases hs
      | some q =>
        obtain ⟨m, c, b, u⟩ := q
        rw [hp] at hs
        simp only [Option.some.injEq] at hs
        subst hs
        exact ih _ out h (by simp [h1]) (by simp [h2]) (by simp [h3])

/-! ## Sorting lemmas (top-N ranking) -/

theorem descLE_trans (key : String × TopRec → ℚ) :
    ∀ a b c, descLE key a b → descLE key b c → descLE key a c := by
  intro a b c hab hbc
  exact decide_eq_true (le_trans (of_decide_eq_true hbc) (of_decide_eq_true hab))

theorem descLE_total (key : String × TopRec → ℚ) :
    ∀ a b, descLE key a b || descLE key b a := by
  intro a b
  unfold descLE
  rcases le_total (key b) (key a) with h | h <;> simp [h]

theorem sortedDescBy_sorted (key : String × TopRec → ℚ) (fams : List (String × TopRec)) :
    (sortedDescBy key fams).Pairwise (fun a b => key b ≤ key a) := by
  have h := List.sorted_mergeSort (descLE_trans key) (descLE_total key) fams
  exact h.imp (fun hab => of_decide_eq_true hab)

theorem sortedDescBy_stable (key : String × TopRec → ℚ) (fams : List (String × TopRec))
    (c : ℚ) :
    (sortedDescBy key fams).filter (fun p => decide (key p = c)) =
      fams.filter (fun p => decide (key p = c)) := by
  have hsub : List.Sublist (fams.filter (fun p => decide (key p = c))) fams :=
    List.filter_sublist fams
  have hpair : (fams.filter (fun p => decide (key p = c))).Pairwise
      (fun a b => descLE key a b = true) := by
    apply List.pairwise_of_forall_mem_list
    intro a ha b hb
    have hka : key a = c := of_decide_eq_true (List.mem_filter.mp ha).2
    have hkb : key b = c := of_decide_eq_true (List.mem_filter.mp hb).2
    exact decide_eq_true (le_of_eq (hkb.trans hka.symm))
  have h1 : List.Sublist (fams.filter (fun p => decide (key p = c))) (sortedDescBy key fams) :=
    List.sublist_mergeSort (descLE_trans key) (descLE_total key) hpair hsub
  have h2 := h1.filter (fun p => decide (key p = c))
  rw [List.filter_eq_self.mpr (fun a ha => (List.mem_filter.mp ha).2)] at h2
  have hperm : List.Perm ((sortedDescBy key fams).filter (fun p => decide (key p = c)))
      (fams.filter (fun p => decide (key p = c))) :=
    (List.mergeSort_perm fams (descLE key)).filter (fun p => decide (key p = c))
  exact (h2.eq_of_length hperm.length_eq.symm).symm

theorem topFamilies_length_le (key : String × TopRec → ℚ) (fams : List (String × TopRec)) :
    (topFamilies key fams).length ≤ topN := by
  unfold topFamilies
  simp [List.length_take_le]

theorem mem_topFamilies_sub (key : String × TopRec → ℚ) (fams : List (String × TopRec))
    (k : String) (h : k ∈ topFamilies key fams) : k ∈ keysOf fams := by
  unfold topFamilies at h
  have h2 := List.mem_of_mem_take h
  rcases List.mem_map.mp h2 with ⟨p, hp, rfl⟩
  exact List.mem_map.mpr ⟨p, List.mem_mergeSort.mp hp, rfl⟩

/-! ## Bucketing lemmas -/

theorem pyListMax_isSome (l : List ℚ) (h : l ≠ []) : ∃ q, pyListMax l = some q := by
  cases l with
  | nil => exact absurd rfl h
  | cons x xs => exact ⟨_, rfl⟩

theorem small_lt_medium : SMALL_THRESHOLD < MEDIUM_THRESHOLD := by
  unfold SMALL_THRESHOLD MEDIUM_THRESHOLD
  norm_num

theorem buckets_spec (fams : FamMap) (hnd : (keysOf fams).Nodup)
    (hne : ∀ k r, famFind fams k = some r → r.sum_usd ≠ []) :
    ∃ s md lg, buckets fams = some (s, md, lg) ∧
      (∀ k, (k ∈ s ∨ k ∈ md ∨ k ∈ lg) → k ∈ keysOf fams) ∧
      ∀ k r, famFind fams k = some r → ∃ q, pyListMax r.sum_usd = some q ∧
        (k ∈ s ↔ q < SMALL_THRESHOLD) ∧
        (k ∈ md ↔ SMALL_THRESHOLD ≤ q ∧ q < MEDIUM_THRESHOLD) ∧
        (k ∈ lg ↔ MEDIUM_THRESHOLD ≤ q) := by
  induction fams with
  | nil =>
    refine ⟨[], [], [], rfl, by simp, ?_⟩
    intro k r h
    simp [famFind] at h
  | cons p rest ih =>
    obtain ⟨k0, r0⟩ := p
    have hkeys : keysOf ((k0, r0) :: rest) = k0 :: keysOf rest := rfl
    rw [hkeys] at hnd
    obtain ⟨hk0notin, hnd'⟩ := List.nodup_cons.mp hnd
    have hne' : ∀ k r, famFind rest k = some r → r.sum_usd ≠ [] := by
      intro k r h
      have hkmem : k ∈ keysOf rest := (mem_keysOf_iff rest k).mpr ⟨r, h⟩
      have hk0k : ¬(k0 = k) := fun hc => hk0notin (hc ▸ hkmem)
      exact hne k r (by unfold famFind; rw [if_neg hk0k]; exact h)
    have hfind0 : famFind ((k0, r0) :: rest) k0 = some r0 := by
      unfold famFind; rw [if_pos rfl]
    obtain ⟨q0, hq0⟩ := pyListMax_isSome r0.sum_usd (hne k0 r0 hfind0)
    obtain ⟨s, md, lg, hb, hsub, hspec⟩ := ih hnd' hne'
    have hmemiff : ∀ k r, ¬(k0 = k) → famFind ((k0, r0) :: rest) k = some r →
        famFind rest k = some r := by
      intro k r hk h
      unfold famFind at h
      rwa [if_neg hk] at h
    have hk0s : k0 ∉ s := fun hc => hk0notin (hsub k0 (Or.inl hc))
    have hk0md : k0 ∉ md := fun hc => hk0notin (hsub k0 (Or.inr (Or.inl hc)))
    have hk0lg : k0 ∉ lg := fun hc => hk0notin (hsub k0 (Or.inr (Or.inr hc)))
    by_cases h1 : q0 < SMALL_THRESHOLD
    · refine ⟨k0 :: s, md, lg, ?_, ?_, ?_⟩
      · unfold buckets
        rw [hq0, hb]
        simp [h1]
      · intro k hk
        rw [hkeys]
        rcases hk with hk | hk | hk
        · rcases List.mem_cons.mp hk with rfl | hk
          · exact List.mem_cons_self _ _
          · exact List.mem_cons_of_mem _ (hsub k (Or.inl hk))
        · exact List.mem_cons_of_mem _ (hsub k (Or.inr (Or.inl hk)))
        · exact List.mem_cons_of_mem _ (hsub k (Or.inr (Or.inr hk)))
      · intro k r hfind
        by_cases hk : k0 = k
        · subst hk
          rw [hfind0, Option.some.injEq] at hfind
          subst hfind
          refine ⟨q0, hq0, ?_, ?_, ?_⟩
          · exact iff_of_true (List.mem_cons_self _ _) h1
          · exact iff_of_false hk0md (fun hc => absurd h1 (not_lt.mpr hc.1))
          · exact iff_of_false hk0lg
              (fun hc => absurd h1 (not_lt.mpr (le_trans small_lt_medium.le hc)))
        · obtain ⟨q, hq, hs', hmd', hlg'⟩ := hspec k r (hmemiff k r hk hfind)
          refine ⟨q, hq, ?_, hmd', hlg'⟩
          rw [← hs']
          constructor
          · intro hc
            rcases List.mem_cons.mp hc with rfl | hc
            · exact absurd rfl hk
            · exact hc
          · exact List.mem_cons_of_mem _
    · by_cases h2 : q0 < MEDIUM_THRESHOLD
      · refine ⟨s, k0 :: md, lg, ?_, ?_, ?_⟩
        · unfold buckets
          rw [hq0, hb]
          simp [h1, h2]
        · intro k hk
          rw [hkeys]
          rcases hk with hk | hk | hk
          · exact List.mem_cons_of_mem _ (hsub k (Or.inl hk))
          · rcases List.mem_cons.mp hk with rfl | hk
            · exact List.mem_cons_self _ _
            · exact List.mem_cons_of_mem _ (hsub k (Or.inr (Or.inl hk)))
          · exact List.mem_cons_of_mem _ (hsub k (Or.inr (Or.inr hk)))
        · intro k r hfind
          by_cases hk : k0 = k
          · subst hk
            rw [hfind0, Option.some.injEq] at hfind
            subst hfind
            refine ⟨q0, hq0, ?_, ?_, ?_⟩
            · exact iff_of_false hk0s h1
            · exact iff_of_true (List.mem_cons_self _ _) ⟨not_lt.mp h1, h2⟩
            · exact iff_of_false hk0lg (fun hc => absurd h2 (not_lt.mpr hc))
          · obtain ⟨q, hq, hs', hmd', hlg'⟩ := hspec k r (hmemiff k r hk hfind)
            refine ⟨q, hq, hs', ?_, hlg'⟩
            rw [← hmd']
            constructor
            · intro hc
              rcases List.mem_cons.mp hc with rfl | hc
              · exact absurd rfl hk
              · exact hc
            · exact List.mem_cons_of_mem _
      · refine ⟨s, md, k0 :: lg, ?_, ?_, ?_⟩
        · unfold buckets
          rw [hq0, hb]
          simp [h1, h2]
        · intro k hk
          rw [hkeys]
          rcases hk with hk | hk | hk
          · exact List.mem_cons_of_mem _ (hsub k (Or.inl hk))
          · exact List.mem_cons_of_mem _ (hsub k (Or.inr (Or.inl hk)))
          · rcases List.mem_cons.mp hk with rfl | hk
            · exact List.mem_cons_self _ _
            · exact List.mem_cons_of_mem _ (hsub k (Or.inr (Or.inr hk)))
        · intro k r hfind
          by_cases hk : k0 = k
          · subst hk
            rw [hfind0, Option.some.injEq] at hfind
            subst hfind
            refine ⟨q0, hq0, ?_, ?_, ?_⟩
            · exact iff_of_false hk0s h1
            · exact iff_of_false hk0md (fun hc => absurd hc.2 h2)
            · exact iff_of_true (List.mem_cons_self _ _) (not_lt.mp h2)
          · obtain ⟨q, hq, hs', hmd', hlg'⟩ := hspec k r (hmemiff k r hk hfind)
            refine ⟨q, hq, hs', hmd', ?_⟩
            rw [← hlg']
            constructor
            · intro hc
              rcases List.mem_cons.mp hc with rfl | hc
              · exact absurd rfl hk
              · exact hc
            · exact List.mem_cons_of_mem _

/-! ## Abort propagation and skip lemmas -/

theorem famIngestRows_bad (bad : List String) (hbad : famRowParse bad = none) :
    ∀ (pre : List (List String)) (st : FamMap) (suf : List (List String)),
      famIngestRows st (pre ++ bad :: suf) = none := by
  intro pre
  induction pre with
  | nil =>
    intro st suf
    simp only [List.nil_append, famIngestRows, famStep, hbad]
  | cons r rs ih =>
    intro st suf
    simp only [List.cons_append, famIngestRows]
    cases hs : famStep st r with
    | none => rfl
    | some st2 => exact ih st2 suf

theorem topIngestRows_bad (bad : List String) (hbad : topRowParse bad = none) :
    ∀ (pre : List (List String)) (st : TopState) (suf : List (List String)),
      topIngestRows st (pre ++ bad :: suf) = none := by
  intro pre
  induction pre with
  | nil =>
    intro st suf
    simp only [List.nil_append, topIngestRows, topStep, hbad]
  | cons r rs ih =>
    intro st suf
    simp only [List.cons_append, topIngestRows]
    cases hs : topStep st r with
    | none => rfl
    | some st2 => exact ih st2 suf

theorem monthsIngestRows_bad (bad : List String) (hbad : monthsRowParse bad = none) :
    ∀ (pre : List (List String)) (st : MonthsData) (suf : List (List String)),
      monthsIngestRows st (pre ++ bad :: suf) = none := by
  intro pre
  induction pre with
  | nil =>
    intro st suf
    simp only [List.nil_append, monthsIngestRows, monthsStep, hbad]
  | cons r rs ih =>
    intro st suf
    simp only [List.cons_append, monthsIngestRows]
    cases hs : monthsStep st r with
    | none => rfl
    | some st2 => exact ih st2 suf

theorem famRowParse_total (parts : List String) (f : String) (h0 : parts[0]? = some f)
    (h1 : parts[1]? = some "Total") : famRowParse parts = some RowAct.skip := by
  unfold famRowParse
  rw [h0, h1]
  simp

theorem topRowParse_total (parts : List String) (f : String) (h0 : parts[0]? = some f)
    (h1 : parts[1]? = some "Total") : topRowParse parts = some RowAct.skip := by
  unfold topRowParse
  rw [h0]
  by_cases hb : f = "BlackCat"
  · simp [hb]
  · simp only [Option.bind_eq_bind, Option.some_bind]
    rw [if_neg hb, h1]
    simp

theorem topRowParse_blackcat (parts : List String) (h0 : parts[0]? = some "BlackCat") :
    topRowParse parts = some RowAct.skip := by
  unfold topRowParse
  rw [h0]
  simp

theorem monthsRowParse_total (parts : List String) (h0 : parts[0]? = some "Total") :
    monthsRowParse parts = none := by
  unfold monthsRowParse
  rw [h0]
  have hm : parseMonth "Total" = none := by decide
  cases h1 : parts[1]? with
  | none => simp
  | some p1 =>
    cases h2 : parts[2]? with
    | none => simp
    | some p2 =>
      cases h3 : parts[3]? with
      | none => simp
      | some p3 => simp [hm]

theorem famIngestRows_skip_total (parts : List String) (f : String) (h0 : parts[0]? = some f)
    (h1 : parts[1]? = some "Total") (st : FamMap) (rest : List (List String)) :
    famIngestRows st (parts :: rest) = famIngestRows st rest := by
  simp only [famIngestRows, famStep, famRowParse_total parts f h0 h1]

theorem topIngestRows_skip_total (parts : List String) (f : String) (h0 : parts[0]? = some f)
    (h1 : parts[1]? = some "Total") (st : TopState) (rest : List (List String)) :
    topIngestRows st (parts :: rest) = topIngestRows st rest := by
  simp only [topIngestRows, topStep, topRowParse_total parts f h0 h1]

theorem topIngestRows_skip_blackcat (parts : List String) (h0 : parts[0]? = some "BlackCat")
    (st : TopState) (rest : List (List String)) :
    topIngestRows st (parts :: rest) = topIngestRows st rest := by
  simp only [topIngestRows, topStep, topRowParse_blackcat parts h0]

theorem monthsIngestRows_total_none (parts : List String) (h0 : parts[0]? = some "Total")
    (st : MonthsData) (rest : List (List String)) :
    monthsIngestRows st (parts :: rest) = none := by
  simp only [monthsIngestRows, monthsStep, monthsRowParse_total parts h0]

/-! ## Peak-label membership -/

theorem mem_annotatedIdxs (ys : List ℚ) (eps : ℚ) (i : Nat) :
    i ∈ annotatedIdxs ys eps ↔
      (0 < i ∧ i < ys.length - 1 ∧ peakCond ys eps i = true) ∨
        i = 0 ∨ i = ys.length - 1 := by
  unfold annotatedIdxs
  simp only [List.mem_append, List.mem_filter, List.mem_range', List.mem_cons,
    List.mem_singleton, List.not_mem_nil, or_false]
  constructor
  · rintro (⟨⟨j, hj, rfl⟩, hp⟩ | h | h)
    · exact Or.inl ⟨by omega, by omega, hp⟩
    · exact Or.inr (Or.inl h)
    · exact Or.inr (Or.inr h)
  · rintro (⟨h1, h2, hp⟩ | h | h)
    · exact Or.inl ⟨⟨i - 1, by omega, by omega⟩, hp⟩
    · exact Or.inr (Or.inl h)
    · exact Or.inr (Or.inr h)

/-! ## Label lemmas -/

theorem mem_firstSeenFrom (ks ls : List String) (k : String) :
    k ∈ firstSeenFrom ks ls ↔ k ∈ ks ∨ k ∈ ls := by
  rw [← List.mem_toFinset, firstSeenFrom_toFinset]
  simp

theorem blackcat_not_mem_topRowLabels (rows : List (List String)) :
    "BlackCat" ∉ topRowLabels rows := by
  intro h
  rw [topRowLabels, List.mem_filterMap] at h
  obtain ⟨parts, _, hp⟩ := h
  by_cases h0 : parts[0]? = some "BlackCat"
  · rw [if_pos h0] at hp; cases hp
  · rw [if_neg h0] at hp
    by_cases h1 : parts[1]? = some "Total"
    · rw [if_pos h1] at hp; cases hp
    · rw [if_neg h1] at hp
      exact h0 hp

theorem topRowLabels_filter (rows : List (List String)) :
    topRowLabels rows = (rowLabels rows).filter (fun l => decide (l ≠ "BlackCat")) := by
  induction rows with
  | nil => rfl
  | cons r rs ih =>
    unfold topRowLabels rowLabels
    unfold topRowLabels rowLabels at ih
    simp only [List.filterMap_cons]
    cases h0 : r[0]? with
    | none =>
      by_cases h1 : r[1]? = some "Total"
      · simp [h1, ih]
      · simp [h1, h0, ih]
    | some f =>
      by_cases hbc : f = "BlackCat"
      · subst hbc
        by_cases h1 : r[1]? = some "Total"
        · simp [h0, h1, ih]
        · simp [h0, h1, ih]
      · by_cases h1 : r[1]? = some "Total"
        · simp [h0, h1, ih, hbc]
        · simp [h0, h1, ih, hbc]

/-! ## Sample data shared by witnesses and counterexamples -/

/-- The header line of a family timeline file. -/
def sampleFamHeader : List String := ["Family", "Month", "Count", "Sum (BTC)", "Sum (USD)"]

/-- The header line of a month timeline file. -/
def sampleMonthsHeader : List String := ["Month", "Count", "Sum (BTC)", "Sum (USD)"]

/-! ## Claims -/

/-- C5 counterexample: the claim says every script skips rows whose month
field is `"Total"`, but `plot_months.py` has no such check — a file whose
only data row has month `"Total"` makes its ingestion abort with a parse
error (`strptime` fails), while the same file without that row ingests
fine; the row is not skipped. -/
theorem C5_counterexample :
    monthsIngestFile [sampleMonthsHeader] = some ⟨[], [], [], []⟩ ∧
      monthsIngestFile [sampleMonthsHeader, ["Total", "1", "1.0", "1.0"]] = none := by
  constructor
  · rfl
  · decide

/-- C5 amended: all three scripts skip the first (header) line; the two
family scripts skip any row whose month field (field 1) is `"Total"`; the
month script has no `"Total"` handling — a row whose month field (field 0
there) is `"Total"` aborts ingestion with a parse error instead of being
skipped. -/
theorem C5_header_total_skip :
    (∀ fileLines : List (List String),
      famIngestFile fileLines = famIngestRows [] (fileLines.drop 1)) ∧
    (∀ fileLines : List (List String),
      topIngestFile fileLines = topIngestRows topInit (fileLines.drop 1)) ∧
    (∀ fileLines : List (List String),
      monthsIngestFile fileLines = monthsIngestRows ⟨[], [], [], []⟩ (fileLines.drop 1)) ∧
    (∀ (parts : List String) (f : String) (st : FamMap) (rest : List (List String)),
      parts[0]? = some f → parts[1]? = some "Total" →
        famIngestRows st (parts :: rest) = famIngestRows st rest) ∧
    (∀ (parts : List String) (f : String) (st : TopState) (rest : List (List String)),
      parts[0]? = some f → parts[1]? = some "Total" →
        topIngestRows st (parts :: rest) = topIngestRows st rest) ∧
    (∀ (parts : List String) (st : MonthsData) (rest : List (List String)),
      parts[0]? = some "Total" → monthsIngestRows st (parts :: rest) = none) :=
  ⟨fun _ => rfl, fun _ => rfl, fun _ => rfl,
    fun parts f st rest h0 h1 => famIngestRows_skip_total parts f h0 h1 st rest,
    fun parts f st rest h0 h1 => topIngestRows_skip_total parts f h0 h1 st rest,
    fun parts st rest h0 => monthsIngestRows_total_none parts h0 st rest⟩

/-- Witness for `C5_header_total_skip` at a concrete `"Total"` row. -/
theorem C5_header_total_skip_witness :
    famIngestRows [] [["Acme", "Total"]] = famIngestRows [] [] ∧
      monthsIngestRows ⟨[], [], [], []⟩ [["Total", "1", "1.0", "1.0"]] = none :=
  ⟨C5_header_total_skip.2.2.2.1 ["Acme", "Total"] "Acme" [] [] (by decide) (by decide),
    C5_header_total_skip.2.2.2.2.2 ["Total", "1", "1.0", "1.0"] ⟨[], [], [], []⟩ []
      (by decide)⟩

/-- C6: a data row on which field parsing fails (malformed numeric or
date field, or a missing field) makes the whole ingestion return `none`
(the uncaught exception), whatever rows precede or follow it — no row
after the bad one is processed and nothing is recovered; at the script
level the run ends in the parse-abort outcome. -/
theorem C6_malformed_abort (badF badT badM : List String)
    (hF : famRowParse badF = none) (hT : topRowParse badT = none)
    (hM : monthsRowParse badM = none) :
    (∀ (pre : List (List String)) (st : FamMap) (suf : List (List String)),
      famIngestRows st (pre ++ badF :: suf) = none) ∧
    (∀ (pre : List (List String)) (st : TopState) (suf : List (List String)),
      topIngestRows st (pre ++ badT :: suf) = none) ∧
    (∀ (pre : List (List String)) (st : MonthsData) (suf : List (List String)),
      monthsIngestRows st (pre ++ badM :: suf) = none) ∧
    (∀ (argv : List String) (hdr : List String) (pre suf : List (List String)),
      argv.length = 2 →
        famMain argv (hdr :: (pre ++ badF :: suf)) = Outcome.parseAbort ∧
        topMain argv (hdr :: (pre ++ badT :: suf)) = Outcome.parseAbort ∧
        monthsMain argv (hdr :: (pre ++ badM :: suf)) = Outcome.parseAbort) := by
  refine ⟨famIngestRows_bad badF hF, topIngestRows_bad badT hT, monthsIngestRows_bad badM hM,
    ?_⟩
  intro argv hdr pre suf h2
  refine ⟨?_, ?_, ?_⟩
  · unfold famMain
    rw [if_neg (by omega)]
    have : famIngestFile (hdr :: (pre ++ badF :: suf)) = none := by
      unfold famIngestFile
      simpa using famIngestRows_bad badF hF pre [] suf
    rw [this]
  · unfold topMain
    rw [if_neg (by omega)]
    have : topIngestFile (hdr :: (pre ++ badT :: suf)) = none := by
      unfold topIngestFile
      simpa using topIngestRows_bad badT hT pre topInit suf
    rw [this]
  · unfold monthsMain
    rw [if_neg (by omega)]
    have : monthsIngestFile (hdr :: (pre ++ badM :: suf)) = none := by
      unfold monthsIngestFile
      simpa using monthsIngestRows_bad badM hM pre ⟨[], [], [], []⟩ suf
    rw [this]

/-- Witness for `C6_malformed_abort`: a row whose count field is the
non-numeric `"x"`. -/
theorem C6_malformed_abort_witness :
    famRowParse ["Acme", "2021-01", "x", "1.0", "2.0"] = none ∧
      famIngestRows [] [["Acme", "2021-01", "x", "1.0", "2.0"]] = none :=
  ⟨by decide,
    (C6_malformed_abort ["Acme", "2021-01", "x", "1.0", "2.0"]
      ["Acme", "2021-01", "x", "1.0", "2.0"] ["2021-01", "x", "1.0", "2.0"]
      (by decide) (by decide) (by decide)).1 [] [] []⟩

/-- C7: with an argument count other than two (script name plus one
positional argument), every script prints its usage message to standard
output and exits with code 1, and its outcome does not depend on any file
contents (the file is never read). -/
theorem C7_usage_exit (argv : List String) (h : argv.length ≠ 2) :
    (∀ fileLines fileLines2 : List (List String),
      monthsMain argv fileLines = Outcome.usageExit (monthsUsage (argv.headD "")) 1 ∧
        monthsMain argv fileLines = monthsMain argv fileLines2) ∧
    (∀ fileLines fileLines2 : List (List String),
      famMain argv fileLines = Outcome.usageExit (famUsage (argv.headD "")) 1 ∧
        famMain argv fileLines = famMain argv fileLines2) ∧
    (∀ fileLines fileLines2 : List (List String),
      topMain argv fileLines = Outcome.usageExit (topUsage (argv.headD "")) 1 ∧
        topMain argv fileLines = topMain argv fileLines2) := by
  refine ⟨?_, ?_, ?_⟩ <;> intro l1 l2 <;>
    exact ⟨by simp [monthsMain, famMain, topMain, h], by simp [monthsMain, famMain, topMain, h]⟩

/-- Witness for `C7_usage_exit` at an argument vector with no positional
argument. -/
theorem C7_usage_exit_witness :
    (["plot_months.py"] : List String).length ≠ 2 ∧
      monthsMain ["plot_months.py"] [[]] =
        Outcome.usageExit (monthsUsage "plot_months.py") 1 := by
  refine ⟨by decide, ?_⟩
  have h := ((C7_usage_exit ["plot_months.py"] (by decide)).1 [[]] []).1
  simpa using h

/-- C8: in the top-N script a row whose family field is `"BlackCat"` is
skipped before anything else — the ingestion state (families dict and the
running `min_month` / `max_month`) is exactly as if the row were absent —
and consequently `"BlackCat"` is never a key of the ingested mapping and
appears in no ranking for any metric. -/
theorem C8_blackcat_skip (parts : List String) (h0 : parts[0]? = some "BlackCat")
    (st : TopState) (rest : List (List String))
    (fileLines : List (List String)) (out : TopState)
    (hing : topIngestFile fileLines = some out) :
    topIngestRows st (parts :: rest) = topIngestRows st rest ∧
      "BlackCat" ∉ keysOf out.families ∧
      ∀ key, "BlackCat" ∉ topFamilies key out.families := by
  have hkeys := topIngestRows_keys (fileLines.drop 1) topInit out hing
  have hnotin : "BlackCat" ∉ keysOf out.families := by
    rw [hkeys, mem_firstSeenFrom]
    rintro (hc | hc)
    · simp [keysOf, topInit] at hc
    · exact blackcat_not_mem_topRowLabels _ hc
  exact ⟨topIngestRows_skip_blackcat parts h0 st rest, hnotin,
    fun key hc => hnotin (mem_topFamilies_sub key out.families _ hc)⟩

/-- Witness for `C8_blackcat_skip` at a concrete `"BlackCat"` row and a
one-row file. -/
theorem C8_blackcat_skip_witness :
    topIngestFile [sampleFamHeader, ["BlackCat", "2021-01", "1", "0.5", "100.0"]] =
        some topInit ∧
      topIngestRows topInit [["BlackCat", "2021-01", "1", "0.5", "100.0"]] =
        topIngestRows topInit [] ∧
      "BlackCat" ∉ keysOf topInit.families := by
  have h := C8_blackcat_skip ["BlackCat", "2021-01", "1", "0.5", "100.0"] (by decide)
    topInit [] [sampleFamHeader, ["BlackCat", "2021-01", "1", "0.5", "100.0"]] topInit
    (by decide)
  exact ⟨by decide, h.1, h.2.1⟩

/-- C10: run on a file holding only the header line (zero data rows), the
month-timeline script fails with the uncaught index error raised by
`months[0]` (line 52, and again at lines 63-64 and 78-79), not with a
usage error and not with a parse error. -/
theorem C10_empty_index_error (argv : List String) (h : argv.length = 2)
    (hdr : List String) :
    monthsMain argv [hdr] = Outcome.indexError ∧
      (∀ s c, monthsMain argv [hdr] ≠ Outcome.usageExit s c) ∧
      monthsMain argv [hdr] ≠ Outcome.parseAbort := by
  have hmain : monthsMain argv [hdr] = Outcome.indexError := by
    unfold monthsMain
    rw [if_neg (by omega)]
    rfl
  exact ⟨hmain, fun s c => by rw [hmain]; simp, by rw [hmain]; simp⟩

/-- Witness for `C10_empty_index_error` at a concrete argument vector and
header. -/
theorem C10_empty_index_error_witness :
    (["plot_months.py", "timeline_months.csv"] : List String).length = 2 ∧
      monthsMain ["plot_months.py", "timeline_months.csv"] [sampleMonthsHeader] =
        Outcome.indexError :=
  ⟨by decide,
    (C10_empty_index_error ["plot_months.py", "timeline_months.csv"] (by decide)
      sampleMonthsHeader).1⟩

/-- A month-timeline file with a constant count series (no interior
peak). -/
def c1File : List (List String) :=
  [sampleMonthsHeader,
   ["2021-01", "5", "1.0", "1.0"], ["2021-02", "5", "1.0", "1.0"],
   ["2021-03", "5", "1.0", "1.0"]]

/-- A month-timeline file whose middle count is an interior peak. -/
def c1PeakFile : List (List String) :=
  [sampleMonthsHeader,
   ["2021-01", "1", "1.0", "1.0"], ["2021-02", "100", "1.0", "1.0"],
   ["2021-03", "1", "1.0", "1.0"]]

/-- The state `plot_months.py` builds from `c1PeakFile`. -/
def c1PeakSt : MonthsData :=
  ⟨[⟨2021, 1, 1⟩, ⟨2021, 2, 1⟩, ⟨2021, 3, 1⟩], [1, 100, 1], [1, 1, 1], [0, 0, 0]⟩

/-- C1 counterexample: on the ingested constant count series (epsilon
75), index 0 receives a value label (line 63 labels the first point
unconditionally) although it is not an interior index satisfying the peak
test — refuting "no point is annotated under any other condition". -/
theorem C1_counterexample :
    (monthsIngestFile c1File).map (fun st => (statsOf st).zip epsilons) =
        some [([5, 5, 5], 75), ([1, 1, 1], 300), ([0, 0, 0], Rat.divInt 8 5)] ∧
      0 ∈ annotatedIdxs [(5 : ℚ), 5, 5] 75 ∧
      ¬(0 < 0 ∧ 0 < ([(5 : ℚ), 5, 5] : List ℚ).length - 1 ∧
          peakCond [(5 : ℚ), 5, 5] 75 0 = true) :=
  ⟨by decide, by decide, by decide⟩

/-- C1 amended: for every ingested series and its metric epsilon, a point
is labelled iff it is an interior index passing the peak test, or it is
the first point, or it is the last point (lines 63-64 label the two
endpoints unconditionally). -/
theorem C1_peak_labels (fileLines : List (List String)) (st : MonthsData)
    (h : monthsIngestFile fileLines = some st)
    (ys : List ℚ) (eps : ℚ) (hmem : (ys, eps) ∈ (statsOf st).zip epsilons) (i : Nat) :
    i ∈ annotatedIdxs ys eps ↔
      (0 < i ∧ i < ys.length - 1 ∧ peakCond ys eps i = true) ∨
        i = 0 ∨ i = ys.length - 1 :=
  mem_annotatedIdxs ys eps i

/-- Witness for `C1_peak_labels`: the interior peak of `c1PeakFile` at
index 1 of the count panel. -/
theorem C1_peak_labels_witness :
    monthsIngestFile c1PeakFile = some c1PeakSt ∧
      ([(1 : ℚ), 100, 1], (75 : ℚ)) ∈ (statsOf c1PeakSt).zip epsilons ∧
      (1 ∈ annotatedIdxs [(1 : ℚ), 100, 1] 75 ↔
        (0 < 1 ∧ 1 < ([(1 : ℚ), 100, 1] : List ℚ).length - 1 ∧
            peakCond [(1 : ℚ), 100, 1] 75 1 = true) ∨
          1 = 0 ∨ 1 = ([(1 : ℚ), 100, 1] : List ℚ).length - 1) :=
  ⟨by decide, by decide,
    C1_peak_labels c1PeakFile c1PeakSt (by decide) [(1 : ℚ), 100, 1] 75 (by decide) 1⟩

/-- A family-timeline file whose only data row belongs to the excluded
family. -/
def c2File : List (List String) :=
  [sampleFamHeader, ["BlackCat", "2021-01", "1", "0.5", "100.0"]]

/-- C2 counterexample: in the top-N script the `"BlackCat"` label occurs
in a non-header, non-`"Total"` row of `c2File`, yet ingestion leaves the
mapping empty — the key set does not equal the label set. -/
theorem C2_counterexample :
    topIngestFile c2File = some topInit ∧
      "BlackCat" ∈ rowLabels (c2File.drop 1) ∧
      "BlackCat" ∉ keysOf topInit.families :=
  ⟨by decide, by decide, by decide⟩

/-- C2 amended: for `plot_families.py` the key set of the ingested
mapping equals the set of labels of non-header rows whose month field is
not `"Total"` (and the keys are duplicate-free, so their number is the
number of distinct such labels); for `plot_top_families.py` the same
holds only after additionally excluding the `"BlackCat"` label. -/
theorem C2_recognized_keys (fileLines : List (List String)) :
    (∀ fams, famIngestFile fileLines = some fams →
      (keysOf fams).toFinset = (rowLabels (fileLines.drop 1)).toFinset ∧
        (keysOf fams).Nodup ∧
        (keysOf fams).length = (rowLabels (fileLines.drop 1)).toFinset.card) ∧
    (∀ st, topIngestFile fileLines = some st →
      (keysOf st.families).toFinset =
          ((rowLabels (fileLines.drop 1)).filter (fun l => decide (l ≠ "BlackCat"))).toFinset ∧
        (keysOf st.families).Nodup ∧
        (keysOf st.families).length =
          ((rowLabels (fileLines.drop 1)).filter
            (fun l => decide (l ≠ "BlackCat"))).toFinset.card) := by
  constructor
  · intro fams h
    have hk := famIngestRows_keys (fileLines.drop 1) [] fams h
    have hnodup : (keysOf fams).Nodup := by
      rw [hk]
      exact firstSeenFrom_nodup _ _ (by simp [keysOf])
    have hset : (keysOf fams).toFinset = (rowLabels (fileLines.drop 1)).toFinset := by
      rw [hk, firstSeenFrom_toFinset]
      simp [keysOf]
    refine ⟨hset, hnodup, ?_⟩
    rw [← hset]
    exact (List.toFinset_card_of_nodup hnodup).symm
  · intro st h
    have hk := topIngestRows_keys (fileLines.drop 1) topInit st h
    have hlab := topRowLabels_filter (fileLines.drop 1)
    have hnodup : (keysOf st.families).Nodup := by
      rw [hk]
      exact firstSeenFrom_nodup _ _ (by simp [keysOf, topInit])
    have hset : (keysOf st.families).toFinset =
        ((rowLabels (fileLines.drop 1)).filter (fun l => decide (l ≠ "BlackCat"))).toFinset := by
      rw [hk, firstSeenFrom_toFinset, ← hlab]
      simp [keysOf, topInit]
    refine ⟨hset, hnodup, ?_⟩
    rw [← hset]
    exact (List.toFinset_card_of_nodup hnodup).symm

/-- A one-family file: `Conti`, one row, maximum monthly USD sum 700. -/
def c3File : List (List String) :=
  [sampleFamHeader, ["Conti", "2017-12", "1", "0.5", "700"]]

/-- The mapping `plot_families.py` builds from `c3File`. -/
def c3Fams : FamMap :=
  [("Conti", ⟨[⟨2017, 12, 1⟩], [1], [Rat.divInt 1 2], [700]⟩)]

/-- Witness for `C2_recognized_keys` at `c3File`. -/
theorem C2_recognized_keys_witness :
    famIngestFile c3File = some c3Fams ∧
      ((keysOf c3Fams).toFinset = (rowLabels (c3File.drop 1)).toFinset ∧
        (keysOf c3Fams).Nodup ∧
        (keysOf c3Fams).length = (rowLabels (c3File.drop 1)).toFinset.card) :=
  ⟨by decide, (C2_recognized_keys c3File).1 c3Fams (by decide)⟩

/-- C3: bucketing partitions the ingested families: the thresholds are
1000 and 50000 dollars, bucketing succeeds on every ingested mapping, and
a family is in `small` iff its maximum monthly USD sum is below 1000, in
`medium` iff it is in [1000, 50000), and in `large` iff it is at least
50000 — membership depends only on that maximum, the three conditions
exclude each other, and only ingested families appear in the buckets. -/
theorem C3_threshold_buckets (fileLines : List (List String)) (fams : FamMap)
    (h : famIngestFile fileLines = some fams) :
    SMALL_THRESHOLD = 1000 ∧ MEDIUM_THRESHOLD = 50000 ∧
      ∃ s md lg, buckets fams = some (s, md, lg) ∧
        (∀ k, (k ∈ s ∨ k ∈ md ∨ k ∈ lg) → k ∈ keysOf fams) ∧
        ∀ k r, famFind fams k = some r → ∃ q, pyListMax r.sum_usd = some q ∧
          (k ∈ s ↔ q < SMALL_THRESHOLD) ∧
          (k ∈ md ↔ SMALL_THRESHOLD ≤ q ∧ q < MEDIUM_THRESHOLD) ∧
          (k ∈ lg ↔ MEDIUM_THRESHOLD ≤ q) := by
  refine ⟨rfl, rfl, ?_⟩
  apply buckets_spec
  · have hk := famIngestRows_keys (fileLines.drop 1) [] fams h
    rw [hk]
    exact firstSeenFrom_nodup _ _ (by simp [keysOf])
  · intro k r hf
    obtain ⟨h1, h2, h3, h4⟩ := famIngestRows_good (fileLines.drop 1) [] fams h
      (by intro k2 r2 hr; simp [famFind] at hr) k r hf
    intro hc
    apply h4
    rw [hc] at h3
    exact List.eq_nil_of_length_eq_zero h3.symm

/-- Witness for `C3_threshold_buckets` at `c3File` (maximum 700: the
`small` bucket). -/
theorem C3_threshold_buckets_witness :
    famIngestFile c3File = some c3Fams ∧
      (SMALL_THRESHOLD = 1000 ∧ MEDIUM_THRESHOLD = 50000 ∧
        ∃ s md lg, buckets c3Fams = some (s, md, lg) ∧
          (∀ k, (k ∈ s ∨ k ∈ md ∨ k ∈ lg) → k ∈ keysOf c3Fams) ∧
          ∀ k r, famFind c3Fams k = some r → ∃ q, pyListMax r.sum_usd = some q ∧
            (k ∈ s ↔ q < SMALL_THRESHOLD) ∧
            (k ∈ md ↔ SMALL_THRESHOLD ≤ q ∧ q < MEDIUM_THRESHOLD) ∧
            (k ∈ lg ↔ MEDIUM_THRESHOLD ≤ q)) :=
  ⟨by decide, C3_threshold_buckets c3File c3Fams (by decide)⟩

/-- The state `plot_top_families.py` builds from `c3File`. -/
def c4St : TopState :=
  ⟨[("Conti", ⟨[⟨2017, 12, 1⟩], [1], [Rat.divInt 1 2], [700], 1, Rat.divInt 1 2, 700⟩)],
    ⟨2017, 12, 1⟩, ⟨2017, 12, 1⟩⟩

/-- C4: for each of the three metrics, the ranking of the top-N script
takes the first `topN = 15` keys of the families dict sorted descending
by that metric's running total with Python's stable sort: the result has
at most 15 names, the sorted list is descending in the key, the excluded
`"BlackCat"` appears in no ranking, elements with equal totals keep their
original dict order (stability), and the dict order is the order in which
families were first seen in the file. -/
theorem C4_top_ranking (fileLines : List (List String)) (st : TopState)
    (h : topIngestFile fileLines = some st)
    (key : String × TopRec → ℚ) (hkey : key = keyCount ∨ key = keyBtc ∨ key = keyUsd) :
    topN = 15 ∧
      (topFamilies key st.families).length ≤ topN ∧
      topFamilies key st.families = ((sortedDescBy key st.families).map Prod.fst).take topN ∧
      (sortedDescBy key st.families).Pairwise (fun a b => key b ≤ key a) ∧
      "BlackCat" ∉ topFamilies key st.families ∧
      (∀ c : ℚ, (sortedDescBy key st.families).filter (fun p => decide (key p = c)) =
        st.families.filter (fun p => decide (key p = c))) ∧
      keysOf st.families = firstSeenFrom [] (topRowLabels (fileLines.drop 1)) := by
  have hkeys := topIngestRows_keys (fileLines.drop 1) topInit st h
  refine ⟨rfl, topFamilies_length_le key st.families, rfl,
    sortedDescBy_sorted key st.families, ?_, sortedDescBy_stable key st.families, hkeys⟩
  intro hc
  have hmem := mem_topFamilies_sub key st.families _ hc
  rw [hkeys, mem_firstSeenFrom] at hmem
  rcases hmem with hm | hm
  · exact absurd hm (by decide)
  · exact blackcat_not_mem_topRowLabels _ hm

/-- Witness for `C4_top_ranking` at `c3File` and the count metric. -/
theorem C4_top_ranking_witness :
    topIngestFile c3File = some c4St ∧
      (topN = 15 ∧
        (topFamilies keyCount c4St.families).length ≤ topN ∧
        topFamilies keyCount c4St.families =
          ((sortedDescBy keyCount c4St.families).map Prod.fst).take topN ∧
        (sortedDescBy keyCount c4St.families).Pairwise
          (fun a b => keyCount b ≤ keyCount a) ∧
        "BlackCat" ∉ topFamilies keyCount c4St.families ∧
        (∀ c : ℚ, (sortedDescBy keyCount c4St.families).filter
            (fun p => decide (keyCount p = c)) =
          c4St.families.filter (fun p => decide (keyCount p = c))) ∧
        keysOf c4St.families = firstSeenFrom [] (topRowLabels (c3File.drop 1))) :=
  ⟨by decide, C4_top_ranking c3File c4St (by decide) keyCount (Or.inl rfl)⟩

/-- C9: in both family-based scripts every ingested family's four lists
are parallel — each has one entry per ingested data row of that family —
and in the top-N script the three running totals equal the sums of the
corresponding per-row values. -/
theorem C9_record_invariants (linesF : List (List String)) (famsF : FamMap)
    (hF : famIngestFile linesF = some famsF)
    (linesT : List (List String)) (stT : TopState)
    (hT : topIngestFile linesT = some stT) :
    (∀ k r, famFind famsF k = some r →
      r.count.length = r.month.length ∧ r.sum_btc.length = r.month.length ∧
        r.sum_usd.length = r.month.length ∧
        r.month.length = (linesF.drop 1).countP (famRowMatch k)) ∧
    (∀ k r, famFind stT.families k = some r →
      r.count.length = r.month.length ∧ r.sum_btc.length = r.month.length ∧
        r.sum_usd.length = r.month.length ∧
        r.month.length = (linesT.drop 1).countP (topRowMatch k) ∧
        r.total_count = r.count.sum ∧ r.total_sum_btc = r.sum_btc.sum ∧
        r.total_sum_usd = r.sum_usd.sum) := by
  constructor
  · intro k r hf
    obtain ⟨h1, h2, h3, _⟩ := famIngestRows_good (linesF.drop 1) [] famsF hF
      (by intro k2 r2 hr; simp [famFind] at hr) k r hf
    refine ⟨h1, h2, h3, ?_⟩
    have hlen := famIngestRows_len (linesF.drop 1) [] famsF hF k
    simpa [famLen, hf, famFind] using hlen
  · intro k r hf
    obtain ⟨h1, h2, h3, _, h5, h6, h7⟩ := topIngestRows_good (linesT.drop 1) topInit stT hT
      (by intro k2 r2 hr; simp [famFind, topInit] at hr) k r hf
    refine ⟨h1, h2, h3, ?_, h5, h6, h7⟩
    have hlen := topIngestRows_len (linesT.drop 1) topInit stT hT k
    simpa [topLen, hf, famFind, topInit] using hlen

/-- Witness for `C9_record_invariants` at `c3File` for both scripts. -/
theorem C9_record_invariants_witness :
    famIngestFile c3File = some c3Fams ∧ topIngestFile c3File = some c4St ∧
      ((∀ k r, famFind c3Fams k = some r →
        r.count.length = r.month.length ∧ r.sum_btc.length = r.month.length ∧
          r.sum_usd.length = r.month.length ∧
          r.month.length = (c3File.drop 1).countP (famRowMatch k)) ∧
      (∀ k r, famFind c4St.families k = some r →
        r.count.length = r.month.length ∧ r.sum_btc.length = r.month.length ∧
          r.sum_usd.length = r.month.length ∧
          r.month.length = (c3File.drop 1).countP (topRowMatch k) ∧
          r.total_count = r.count.sum ∧ r.total_sum_btc = r.sum_btc.sum ∧
          r.total_sum_usd = r.sum_usd.sum)) :=
  ⟨by decide, by decide,
    C9_record_invariants c3File c3Fams (by decide) c3File c4St (by decide)⟩
